import Mathlib

/-!
# Verification of the Java scope finder (`src/java_scope_finder.py`)

Shallow embedding of the scope-resolution program.  A tree-sitter node is
modelled by `Node`: a type label, 0-based `start_point`/`end_point`
(row, column) coordinates, and an ordered list of children.  The result
dictionary built by `find_scope` is modelled by `Scope`, whose three fields
are `Option`-valued exactly as the Python dictionary holds `None` or a value.

Python integer arithmetic is modelled on `Int` (line numbers can be
non-positive; widths can be negative on ill-formed spans).  Row coordinates
are `Nat`, as tree-sitter rows are non-negative.  A Python run-time error
(e.g. `None - int`) is modelled by `Option.none` in the return type of
`find_smallest_enclosing_scope`; we prove the crash never occurs from the
initial all-`None` scope.
-/

namespace JavaScopeFinder

/-- A tree-sitter syntax node: type label, 0-based `start_point`/`end_point`
(row, column) pairs, and children in parse order. -/
inductive Node where
  | mk (type : String) (start_point : Nat × Nat) (end_point : Nat × Nat)
      (children : List Node)
deriving Repr

def Node.type : Node → String
  | .mk t _ _ _ => t

def Node.start_point : Node → Nat × Nat
  | .mk _ s _ _ => s

def Node.end_point : Node → Nat × Nat
  | .mk _ _ e _ => e

def Node.children : Node → List Node
  | .mk _ _ _ cs => cs

@[simp]
theorem Node.type_mk (t : String) (s e : Nat × Nat) (cs : List Node) :
    (Node.mk t s e cs).type = t := rfl

@[simp]
theorem Node.start_point_mk (t : String) (s e : Nat × Nat) (cs : List Node) :
    (Node.mk t s e cs).start_point = s := rfl

@[simp]
theorem Node.end_point_mk (t : String) (s e : Nat × Nat) (cs : List Node) :
    (Node.mk t s e cs).end_point = e := rfl

@[simp]
theorem Node.children_mk (t : String) (s e : Nat × Nat) (cs : List Node) :
    (Node.mk t s e cs).children = cs := rfl

/-- The parsed tree handed to `find_scope`; the Python code reads
`tree.root_node`. -/
structure Tree where
  root_node : Node

/-- The `smallest_scope` dictionary: each field is `None` or a value, exactly
as in the Python dict literal of `find_scope`. -/
structure Scope where
  type : Option String
  start_line : Option Nat
  end_line : Option Nat
deriving Repr, DecidableEq

/-- The initial dictionary `{'type': None, 'start_line': None, 'end_line': None}`
constructed in `find_scope`. -/
def Scope.noMatch : Scope := ⟨none, none, none⟩

/-- The `current_scope` dictionary built from a node inside
`find_smallest_enclosing_scope`: `type`, `start_point[0] + 1`,
`end_point[0] + 1`. -/
def Scope.ofNode (n : Node) : Scope :=
  ⟨some n.type, some (n.start_point.1 + 1), some (n.end_point.1 + 1)⟩

/-- `node_contains_line`: the Python chained comparison
`node.start_point[0] <= line_number - 1 <= node.end_point[0]`. -/
def node_contains_line (node : Node) (line_number : Int) : Bool :=
  decide ((node.start_point.1 : Int) ≤ line_number - 1) &&
    decide (line_number - 1 ≤ (node.end_point.1 : Int))

/-- The update condition of `find_smallest_enclosing_scope`:
`smallest_scope['start_line'] is None or
 (current_scope['end_line'] - current_scope['start_line'] <
  smallest_scope['end_line'] - smallest_scope['start_line'])`.
Evaluates left to right with Python short-circuit `or`; returns `none`
when Python would raise `TypeError` (subtraction involving `None`). -/
def scope_update_cond (node : Node) (smallest_scope : Scope) : Option Bool :=
  match smallest_scope.start_line with
  | none => some true
  | some ss =>
    match smallest_scope.end_line with
    | none => none
    | some se =>
      some (decide (((node.end_point.1 : Int) + 1) - ((node.start_point.1 : Int) + 1) <
        (se : Int) - (ss : Int)))

mutual

/-- `find_smallest_enclosing_scope(node, line_number, smallest_scope)`:
if the node contains the line, possibly replace `smallest_scope` by the
current node's scope (strictly-smaller-width rule), then fold over the
children in order.  `none` models an uncaught Python exception. -/
def find_smallest_enclosing_scope : Node → Int → Scope → Option Scope
  | node@(.mk _ _ _ cs), line_number, smallest_scope =>
    if node_contains_line node line_number then
      match scope_update_cond node smallest_scope with
      | none => none
      | some b =>
        fses_children cs line_number
          (if b then Scope.ofNode node else smallest_scope)
    else
      some smallest_scope

/-- The `for child in node.children` loop of `find_smallest_enclosing_scope`,
threading `smallest_scope` through the recursive calls. -/
def fses_children : List Node → Int → Scope → Option Scope
  | [], _, smallest_scope => some smallest_scope
  | c :: rest, line_number, smallest_scope =>
    match find_smallest_enclosing_scope c line_number smallest_scope with
    | none => none
    | some s => fses_children rest line_number s

end

/-- `find_scope(tree, line_number)`: start from the all-`None` dictionary at
`tree.root_node`. -/
def find_scope (tree : Tree) (line_number : Int) : Option Scope :=
  find_smallest_enclosing_scope tree.root_node line_number Scope.noMatch

/-- `validate_line_number(line_number, total_lines)`: `False` for
non-positive numbers and for numbers exceeding the total line count. -/
def validate_line_number (line_number : Int) (total_lines : Nat) : Bool :=
  if line_number ≤ 0 then false
  else if line_number > (total_lines : Int) then false
  else true

/-- The two validation error messages of `validate_line_number`, tagged. -/
inductive LineError where
  | invalidLineNumber
  | lineOutOfRange
deriving Repr, DecidableEq

/-- Which error message `validate_line_number` prints, following its branch
order: the non-positive check first, then the bound check. -/
def validate_line_number_error (line_number : Int) (total_lines : Nat) :
    Option LineError :=
  if line_number ≤ 0 then some .invalidLineNumber
  else if line_number > (total_lines : Int) then some .lineOutOfRange
  else none

/-- `display_result(scope, lines)` as the list of printed lines; `none`
models the `TypeError` Python would raise if `type` were set but
`start_line`/`end_line` were `None`. The snippet is
`''.join(lines[start_line-1 : end_line])`. -/
def display_result (scope : Scope) (lines : List String) :
    Option (List String) :=
  match scope.type with
  | none => some ["No relevant code scope found for the given line number."]
  | some t =>
    match scope.start_line, scope.end_line with
    | some ss, some se =>
      some [s!"Scope Type: {t}", s!"Start Line: {ss}", s!"End Line: {se}",
        "Code Snippet:",
        String.join ((lines.drop (ss - 1)).take (se + 1 - ss))]
    | _, _ => none

/-- Outcome of `read_file(file_path)`. -/
inductive FileResult where
  | ok (lines : List String)
  | notFound
  | unreadable

/-- Outcome of the external parser as consumed by `parse_code`: either a
tree or an exception caught by its `except` clause. -/
inductive ParseOutcome where
  | ok (tree : Tree)
  | error

/-- Observable outcome of one run of `main`. -/
structure MainResult where
  exit_code : Nat
  parser_invoked : Bool
  resolver_invoked : Bool
deriving Repr, DecidableEq

/-- `main()`: read the file (exit 1 on `FileNotFoundError`/`IOError`),
validate the line number (exit 1 when invalid), build the parser and parse
(exit 1 when `parse_code` catches an exception), then resolve and display
and fall off the end (exit 0).  An uncaught exception in `find_scope` or
`display_result` (modelled by `none`) would terminate with exit code 1.
The flags record whether the tree-sitter parser was invoked and whether
the tree traversal (`find_scope`) ran. -/
def main : FileResult → Int → ParseOutcome → MainResult
  | .notFound, _, _ => ⟨1, false, false⟩
  | .unreadable, _, _ => ⟨1, false, false⟩
  | .ok lines, line_number, parse =>
    if validate_line_number line_number lines.length then
      match parse with
      | .error => ⟨1, true, false⟩
      | .ok tree =>
        match find_scope tree line_number with
        | none => ⟨1, true, true⟩
        | some scope =>
          match display_result scope lines with
          | none => ⟨1, true, true⟩
          | some _ => ⟨0, true, true⟩
    else ⟨1, false, false⟩

/-!
## Specification layer

The traversal of `find_smallest_enclosing_scope` is characterised as a left
fold of a candidate-update step over the list of nodes it visits, which for
well-formed trees is the pre-order list filtered by containment.
-/

/-- Width of a node's span in Python integer arithmetic:
`(end_point[0] + 1) - (start_point[0] + 1)`, i.e. `end_row - start_row`. -/
def width (n : Node) : Int := (n.end_point.1 : Int) - (n.start_point.1 : Int)

/-- One update of the best candidate: adopt the new node when there is no
candidate yet, or when the new node's width is strictly smaller. -/
def bestStep (acc : Option Node) (n : Node) : Option Node :=
  match acc with
  | none => some n
  | some m => if width n < width m then some n else some m

/-- The scope dictionary representing a best-so-far candidate. -/
def scopeOfBest : Option Node → Scope
  | none => Scope.noMatch
  | some m => Scope.ofNode m

mutual

/-- Depth-first pre-order listing: a node before its children, children left
to right. -/
def preorder : Node → List Node
  | n@(.mk _ _ _ cs) => n :: preorder_list cs

/-- Pre-order listing of a forest, left to right. -/
def preorder_list : List Node → List Node
  | [] => []
  | c :: rest => preorder c ++ preorder_list rest

end

mutual

/-- The nodes whose update step runs, in visit order: the pruned traversal
keeps a node and descends into its children only when it contains the
line, and skips the whole subtree otherwise. -/
def visited : Node → Int → List Node
  | n@(.mk _ _ _ cs), line =>
    if node_contains_line n line then n :: visited_list cs line else []

/-- Visit order across a forest, left to right. -/
def visited_list : List Node → Int → List Node
  | [], _ => []
  | c :: rest, line => visited c line ++ visited_list rest line

end

mutual

/-- The nesting invariant (spec §3, the part the pruning argument relies
on): every child's span lies within its parent's span, recursively. -/
def spans_nested : Node → Bool
  | .mk _ sp ep cs => children_within sp.1 ep.1 cs

/-- Every node of the forest has its row span inside `[a, b]` and its own
subtree nested. -/
def children_within : Nat → Nat → List Node → Bool
  | _, _, [] => true
  | a, b, c :: rest =>
    (decide (a ≤ c.start_point.1) && decide (c.end_point.1 ≤ b) &&
      spans_nested c) && children_within a b rest

end

mutual

/-- `start ≤ end` holds at every node of the tree. -/
def ordered_spans : Node → Bool
  | .mk _ sp ep cs => decide (sp.1 ≤ ep.1) && ordered_spans_list cs

/-- `start ≤ end` holds at every node of the forest. -/
def ordered_spans_list : List Node → Bool
  | [] => true
  | c :: rest => ordered_spans c && ordered_spans_list rest

end

/-- The full spec §3 invariant: `start ≤ end` at every node and every
child's span lies within its parent's span, recursively. -/
def well_formed (n : Node) : Bool := ordered_spans n && spans_nested n

/-- Modelled from the spec: the update rule of the exhaustive search, applied
at one examined node — adopt the node when there is no current best or when
its width is strictly smaller, stated on the scope dictionary. -/
def exhaustive_update (s : Scope) (n : Node) : Scope :=
  match s.start_line, s.end_line with
  | none, _ => Scope.ofNode n
  | some ss, some se =>
    if ((n.end_point.1 : Int) + 1) - ((n.start_point.1 : Int) + 1) <
        (se : Int) - (ss : Int) then Scope.ofNode n else s
  | some _, none => s

/-- Modelled from the spec: the exhaustive search that examines every node of
the tree in pre-order and folds with the same strict-smaller-width update
rule, updating only at nodes that contain the line. -/
def exhaustive_resolve (root : Node) (line : Int) : Scope :=
  List.foldl
    (fun s n => if node_contains_line n line then exhaustive_update s n else s)
    Scope.noMatch (preorder root)

/-!
## Concrete trees for evaluation

The example scenario of spec §8: a root span [1,20] containing a class node
[2,19], containing a method node [5,10], containing an if-statement [7,9]
(1-based lines; the stored coordinates are the 0-based tree-sitter rows).
-/

def example_if : Node := .mk "if_statement" (6, 0) (8, 0) []

def example_method : Node := .mk "method_declaration" (4, 0) (9, 0) [example_if]

def example_class : Node := .mk "class_declaration" (1, 0) (18, 0) [example_method]

def example_program : Node := .mk "program" (0, 0) (19, 0) [example_class]

/-- A tree with an equal-width tie: a block whose span equals its single
statement's span; the block is visited first in pre-order. -/
def tie_stmt : Node := .mk "expression_statement" (2, 0) (5, 0) []

def tie_block : Node := .mk "block" (2, 0) (5, 0) [tie_stmt]

def tie_root : Node := .mk "program" (0, 0) (9, 0) [tie_block]

/-!
## Basic lemmas
-/

@[simp]
theorem scopeOfBest_none : scopeOfBest none = Scope.noMatch := rfl

@[simp]
theorem scopeOfBest_some (m : Node) : scopeOfBest (some m) = Scope.ofNode m := rfl

@[simp]
theorem scope_update_cond_noMatch (n : Node) :
    scope_update_cond n Scope.noMatch = some true := rfl

theorem scope_update_cond_ofNode (n m : Node) :
    scope_update_cond n (Scope.ofNode m) = some (decide (width n < width m)) := by
  simp only [scope_update_cond, Scope.ofNode]
  congr 1
  rw [decide_eq_decide]
  unfold width
  push_cast
  omega

@[simp]
theorem bestStep_none (n : Node) : bestStep none n = some n := rfl

theorem bestStep_some (m n : Node) :
    bestStep (some m) n = if width n < width m then some n else some m := rfl

theorem node_contains_line_iff (n : Node) (line : Int) :
    node_contains_line n line = true ↔
      (n.start_point.1 : Int) ≤ line - 1 ∧ line - 1 ≤ (n.end_point.1 : Int) := by
  simp [node_contains_line]

/-!
## The traversal as a fold over the visited list
-/

mutual

theorem fses_eq_foldl : ∀ (n : Node) (line : Int) (acc : Option Node),
    find_smallest_enclosing_scope n line (scopeOfBest acc)
      = some (scopeOfBest (List.foldl bestStep acc (visited n line)))
  | .mk t sp ep cs, line, acc => by
    rw [find_smallest_enclosing_scope, visited]
    by_cases h : node_contains_line (Node.mk t sp ep cs) line
    · rw [if_pos h, if_pos h, List.foldl_cons]
      have key := fses_children_eq_foldl cs line (bestStep acc (Node.mk t sp ep cs))
      cases acc with
      | none =>
        rw [scopeOfBest_none, scope_update_cond_noMatch]
        simpa [bestStep] using key
      | some m =>
        rw [scopeOfBest_some, scope_update_cond_ofNode]
        by_cases hw : width (Node.mk t sp ep cs) < width m
        · simpa [bestStep, hw] using key
        · simpa [bestStep, hw] using key
    · rw [if_neg h, if_neg h]
      simp

theorem fses_children_eq_foldl : ∀ (cs : List Node) (line : Int) (acc : Option Node),
    fses_children cs line (scopeOfBest acc)
      = some (scopeOfBest (List.foldl bestStep acc (visited_list cs line)))
  | [], line, acc => by simp [fses_children, visited_list]
  | c :: rest, line, acc => by
    rw [fses_children, visited_list, List.foldl_append]
    rw [fses_eq_foldl c line acc]
    exact fses_children_eq_foldl rest line (List.foldl bestStep acc (visited c line))

end

/-- `find_scope` is the fold of the candidate-update step over the visited
list, starting from no candidate; in particular it never raises. -/
theorem find_scope_eq_foldl (t : Tree) (line : Int) :
    find_scope t line
      = some (scopeOfBest (List.foldl bestStep none (visited t.root_node line))) := by
  have h := fses_eq_foldl t.root_node line none
  simpa [find_scope] using h

/-!
## First-minimum characterisation of the fold
-/

/-- Folding the update step from an existing candidate `a` either keeps `a`
(when no later node is strictly smaller) or ends at the first node that is
strictly smaller than everything before it and at least as small as
everything after it. -/
theorem foldl_bestStep_some_spec (L : List Node) :
    ∀ a : Node,
      (List.foldl bestStep (some a) L = some a ∧ ∀ n ∈ L, width a ≤ width n) ∨
      (∃ m L₁ L₂, List.foldl bestStep (some a) L = some m ∧ L = L₁ ++ m :: L₂ ∧
        width m < width a ∧ (∀ n ∈ L₁, width m < width n) ∧
        (∀ n ∈ L₂, width m ≤ width n)) := by
  induction L with
  | nil => intro a; left; simp
  | cons n L ih =>
    intro a
    rw [List.foldl_cons, bestStep_some]
    by_cases hw : width n < width a
    · rw [if_pos hw]
      rcases ih n with ⟨h1, h2⟩ | ⟨m, L₁, L₂, h1, h2, h3, h4, h5⟩
      · right
        exact ⟨n, [], L, h1, rfl, hw, by simp, h2⟩
      · right
        refine ⟨m, n :: L₁, L₂, h1, by simp [h2], lt_trans h3 hw, ?_, h5⟩
        intro k hk
        rcases List.mem_cons.mp hk with hk | hk
        · exact hk ▸ h3
        · exact h4 k hk
    · rw [if_neg hw]
      rcases ih a with ⟨h1, h2⟩ | ⟨m, L₁, L₂, h1, h2, h3, h4, h5⟩
      · left
        refine ⟨h1, ?_⟩
        intro k hk
        rcases List.mem_cons.mp hk with hk | hk
        · exact hk ▸ le_of_not_lt hw
        · exact h2 k hk
      · right
        refine ⟨m, n :: L₁, L₂, h1, by simp [h2], h3, ?_, h5⟩
        intro k hk
        rcases List.mem_cons.mp hk with hk | hk
        · exact hk ▸ lt_of_lt_of_le h3 (le_of_not_lt hw)
        · exact h4 k hk

/-- Folding from no candidate over a nonempty list ends at the first node of
minimal width: all nodes strictly before it are strictly wider, all nodes
after it are at least as wide. -/
theorem foldl_bestStep_none_spec (L : List Node) :
    (L = [] ∧ List.foldl bestStep none L = none) ∨
    (∃ m L₁ L₂, List.foldl bestStep none L = some m ∧ L = L₁ ++ m :: L₂ ∧
      (∀ n ∈ L₁, width m < width n) ∧ (∀ n ∈ L₂, width m ≤ width n)) := by
  cases L with
  | nil => left; exact ⟨rfl, rfl⟩
  | cons n L =>
    right
    rw [List.foldl_cons, bestStep_none]
    rcases foldl_bestStep_some_spec L n with ⟨h1, h2⟩ | ⟨m, L₁, L₂, h1, h2, h3, h4, h5⟩
    · exact ⟨n, [], L, h1, rfl, by simp, h2⟩
    · refine ⟨m, n :: L₁, L₂, h1, by simp [h2], ?_, h5⟩
      intro k hk
      rcases List.mem_cons.mp hk with hk | hk
      · exact hk ▸ h3
      · exact h4 k hk

/-!
## Membership properties of the visited list
-/

mutual

theorem visited_subset : ∀ (n : Node) (line : Int),
    ∀ d ∈ visited n line, node_contains_line d line = true ∧ d ∈ preorder n
  | .mk t sp ep cs, line => by
    intro d hd
    rw [visited] at hd
    by_cases h : node_contains_line (Node.mk t sp ep cs) line
    · rw [if_pos h] at hd
      rcases List.mem_cons.mp hd with hd | hd
      · subst hd
        exact ⟨h, by rw [preorder]; exact List.mem_cons_self _ _⟩
      · have := visited_list_subset cs line d hd
        exact ⟨this.1, by rw [preorder]; exact List.mem_cons_of_mem _ this.2⟩
    · rw [if_neg h] at hd
      simp at hd

theorem visited_list_subset : ∀ (cs : List Node) (line : Int),
    ∀ d ∈ visited_list cs line, node_contains_line d line = true ∧ d ∈ preorder_list cs
  | [], line => by intro d hd; simp [visited_list] at hd
  | c :: rest, line => by
    intro d hd
    rw [visited_list] at hd
    rw [preorder_list]
    rcases List.mem_append.mp hd with hd | hd
    · have := visited_subset c line d hd
      exact ⟨this.1, List.mem_append_left _ this.2⟩
    · have := visited_list_subset rest line d hd
      exact ⟨this.1, List.mem_append_right _ this.2⟩

end

mutual

theorem preorder_trans : ∀ (n : Node), ∀ m ∈ preorder n, ∀ d ∈ preorder m, d ∈ preorder n
  | .mk t sp ep cs => by
    intro m hm d hd
    rw [preorder] at hm ⊢
    rcases List.mem_cons.mp hm with hm | hm
    · subst hm
      rw [preorder] at hd
      exact hd
    · exact List.mem_cons_of_mem _ (preorder_list_trans cs m hm d hd)

theorem preorder_list_trans : ∀ (cs : List Node), ∀ m ∈ preorder_list cs,
    ∀ d ∈ preorder m, d ∈ preorder_list cs
  | [] => by intro m hm; simp [preorder_list] at hm
  | c :: rest => by
    intro m hm d hd
    rw [preorder_list] at hm ⊢
    rcases List.mem_append.mp hm with hm | hm
    · exact List.mem_append_left _ (preorder_trans c m hm d hd)
    · exact List.mem_append_right _ (preorder_list_trans rest m hm d hd)

end

/-!
## Well-formed trees: pruning loses nothing
-/

mutual

theorem preorder_span : ∀ (n : Node), spans_nested n = true →
    ∀ d ∈ preorder n, n.start_point.1 ≤ d.start_point.1 ∧
      d.end_point.1 ≤ n.end_point.1 ∧ spans_nested d = true
  | .mk t sp ep cs => by
    intro hn d hd
    rw [preorder] at hd
    rcases List.mem_cons.mp hd with hd | hd
    · subst hd
      exact ⟨le_refl _, le_refl _, hn⟩
    · rw [spans_nested] at hn
      exact preorder_list_span sp.1 ep.1 cs hn d hd

theorem preorder_list_span : ∀ (a b : Nat) (cs : List Node),
    children_within a b cs = true →
    ∀ d ∈ preorder_list cs, a ≤ d.start_point.1 ∧ d.end_point.1 ≤ b ∧
      spans_nested d = true
  | a, b, [] => by intro _ d hd; simp [preorder_list] at hd
  | a, b, c :: rest => by
    intro h d hd
    rw [children_within, Bool.and_eq_true, Bool.and_eq_true, Bool.and_eq_true] at h
    obtain ⟨⟨⟨hac, hcb⟩, hwc⟩, hrest⟩ := h
    rw [preorder_list] at hd
    rcases List.mem_append.mp hd with hd | hd
    · have := preorder_span c hwc d hd
      exact ⟨le_trans (of_decide_eq_true hac) this.1,
        le_trans this.2.1 (of_decide_eq_true hcb), this.2.2⟩
    · exact preorder_list_span a b rest hrest d hd

end

theorem filter_contains_cons_pos (line : Int) (n : Node) (L : List Node)
    (h : node_contains_line n line = true) :
    (n :: L).filter (fun d => node_contains_line d line)
      = n :: L.filter (fun d => node_contains_line d line) := by
  simp [List.filter_cons, h]

theorem filter_contains_cons_neg (line : Int) (n : Node) (L : List Node)
    (h : ¬ node_contains_line n line = true) :
    (n :: L).filter (fun d => node_contains_line d line)
      = L.filter (fun d => node_contains_line d line) := by
  simp [List.filter_cons, h]

mutual

theorem visited_eq_filter : ∀ (n : Node) (line : Int), spans_nested n = true →
    visited n line = (preorder n).filter (fun d => node_contains_line d line)
  | .mk t sp ep cs, line => by
    intro hn
    rw [visited, preorder]
    rw [spans_nested] at hn
    by_cases h : node_contains_line (Node.mk t sp ep cs) line
    · rw [if_pos h, filter_contains_cons_pos line _ _ h]
      rw [visited_list_eq_filter cs line sp.1 ep.1 hn]
    · rw [if_neg h, filter_contains_cons_neg line _ _ h]
      symm
      rw [List.filter_eq_nil_iff]
      intro d hd
      have hspan := preorder_list_span sp.1 ep.1 cs hn d hd
      simp only [node_contains_line, Bool.and_eq_true, decide_eq_true_eq] at h ⊢
      intro hcontra
      apply h
      obtain ⟨h1, h2, _⟩ := hspan
      obtain ⟨h3, h4⟩ := hcontra
      constructor
      · calc (((Node.mk t sp ep cs).start_point.1 : Int)) = (sp.1 : Int) := rfl
          _ ≤ (d.start_point.1 : Int) := by exact_mod_cast h1
          _ ≤ line - 1 := h3
      · calc line - 1 ≤ (d.end_point.1 : Int) := h4
          _ ≤ (ep.1 : Int) := by exact_mod_cast h2
          _ = ((Node.mk t sp ep cs).end_point.1 : Int) := rfl

theorem visited_list_eq_filter : ∀ (cs : List Node) (line : Int) (a b : Nat),
    children_within a b cs = true →
    visited_list cs line = (preorder_list cs).filter (fun d => node_contains_line d line)
  | [], line, a, b => by intro _; rw [visited_list, preorder_list]; rfl
  | c :: rest, line, a, b => by
    intro h
    rw [children_within, Bool.and_eq_true, Bool.and_eq_true, Bool.and_eq_true] at h
    obtain ⟨⟨_, hwc⟩, hrest⟩ := h
    rw [visited_list, preorder_list, List.filter_append]
    rw [visited_eq_filter c line hwc, visited_list_eq_filter rest line a b hrest]

end

/-!
## The exhaustive search coincides with the pruned fold
-/

theorem exhaustive_update_scopeOfBest (acc : Option Node) (n : Node) :
    exhaustive_update (scopeOfBest acc) n = scopeOfBest (bestStep acc n) := by
  cases acc with
  | none => rfl
  | some m =>
    have hiff : (((n.end_point.1 : Int) + 1) - ((n.start_point.1 : Int) + 1) <
        ((m.end_point.1 + 1 : Nat) : Int) - ((m.start_point.1 + 1 : Nat) : Int)) ↔
        width n < width m := by
      unfold width
      push_cast
      omega
    rw [scopeOfBest_some, bestStep_some]
    by_cases hw : width n < width m
    · rw [if_pos hw, scopeOfBest_some]
      simp only [exhaustive_update, Scope.ofNode]
      rw [if_pos (hiff.mpr hw)]
    · rw [if_neg hw, scopeOfBest_some]
      simp only [exhaustive_update, Scope.ofNode]
      rw [if_neg (fun hc => hw (hiff.mp hc))]

theorem foldl_exhaustive_eq (line : Int) (L : List Node) :
    ∀ acc : Option Node,
      List.foldl
        (fun s n => if node_contains_line n line then exhaustive_update s n else s)
        (scopeOfBest acc) L
      = scopeOfBest (List.foldl bestStep acc
          (L.filter (fun d => node_contains_line d line))) := by
  induction L with
  | nil => intro acc; simp
  | cons n L ih =>
    intro acc
    by_cases h : node_contains_line n line
    · rw [List.foldl_cons, if_pos h, filter_contains_cons_pos line _ _ h,
        List.foldl_cons, exhaustive_update_scopeOfBest]
      exact ih (bestStep acc n)
    · rw [List.foldl_cons, if_neg h, filter_contains_cons_neg line _ _ h]
      exact ih acc

/-!
## Supporting lemmas for the claims
-/

theorem self_mem_preorder (n : Node) : n ∈ preorder n := by
  cases n
  rw [preorder]
  exact List.mem_cons_self _ _

theorem well_formed_spans_nested (n : Node) (h : well_formed n = true) :
    spans_nested n = true := by
  rw [well_formed, Bool.and_eq_true] at h
  exact h.2

theorem visited_of_contains (n : Node) (line : Int)
    (h : node_contains_line n line = true) :
    ∃ rest, visited n line = n :: rest := by
  cases n
  rw [visited, if_pos h]
  exact ⟨_, rfl⟩

theorem visited_of_not_contains (n : Node) (line : Int)
    (h : ¬ node_contains_line n line = true) :
    visited n line = [] := by
  cases n
  rw [visited, if_neg h]

theorem find?_first {p : Node → Bool} (L₁ L₂ : List Node) (m : Node)
    (h1 : ∀ n ∈ L₁, p n = false) (h2 : p m = true) :
    (L₁ ++ m :: L₂).find? p = some m := by
  induction L₁ with
  | nil => simp [List.find?_cons, h2]
  | cons a L ih =>
    have ha := h1 a (List.mem_cons_self a L)
    simp only [List.cons_append, List.find?_cons, ha]
    exact ih fun n hn => h1 n (List.mem_cons_of_mem _ hn)

/-- Every run of `find_scope` either returns the all-`None` dictionary with
an empty visited list, or returns the scope of the first minimal-width
visited node. -/
theorem find_scope_cases (t : Tree) (line : Int) :
    (find_scope t line = some Scope.noMatch ∧ visited t.root_node line = []) ∨
    (∃ m L₁ L₂, find_scope t line = some (Scope.ofNode m) ∧
      visited t.root_node line = L₁ ++ m :: L₂ ∧
      (∀ n ∈ L₁, width m < width n) ∧ (∀ n ∈ L₂, width m ≤ width n)) := by
  rcases foldl_bestStep_none_spec (visited t.root_node line) with
    ⟨h1, h2⟩ | ⟨m, L₁, L₂, h1, h2, h3, h4⟩
  · left
    rw [find_scope_eq_foldl, h2]
    exact ⟨rfl, h1⟩
  · right
    refine ⟨m, L₁, L₂, ?_, h2, h3, h4⟩
    rw [find_scope_eq_foldl, h1]
    rfl

/-- `find_scope` always returns, and `display_result` succeeds on its
result. -/
theorem find_scope_display_total (t : Tree) (line : Int) (lines : List String) :
    ∃ s out, find_scope t line = some s ∧ display_result s lines = some out := by
  rcases find_scope_cases t line with ⟨h1, _⟩ | ⟨m, _, _, h1, _, _, _⟩
  · exact ⟨_, _, h1, rfl⟩
  · exact ⟨_, _, h1, rfl⟩

/-!
## The claims
-/

/-- C1: For every well-formed tree (every child span contained in its
parent's span) whose root contains the target line, `find_scope` returns the
scope of a node of the tree containing the line whose span width
`end_line - start_line` is minimal among all nodes of the tree containing
the line; in particular no node of the returned match's own subtree contains
the line with a strictly smaller width. -/
theorem claim_C1_minimality (t : Tree) (line : Int)
    (hwf : spans_nested t.root_node = true)
    (hroot : node_contains_line t.root_node line = true) :
    ∃ m : Node, find_scope t line = some (Scope.ofNode m) ∧
      m ∈ preorder t.root_node ∧ node_contains_line m line = true ∧
      (∀ n ∈ preorder t.root_node, node_contains_line n line = true →
        width m ≤ width n) ∧
      (∀ d ∈ preorder m, node_contains_line d line = true →
        ¬ width d < width m) := by
  rcases find_scope_cases t line with ⟨h1, h2⟩ | ⟨m, L₁, L₂, h1, h2, h3, h4⟩
  · obtain ⟨rest, hv⟩ := visited_of_contains t.root_node line hroot
    rw [hv] at h2
    exact absurd h2 (by simp)
  · have hm : m ∈ visited t.root_node line := by
      rw [h2]
      exact List.mem_append_right _ (List.mem_cons_self _ _)
    have hm' := visited_subset t.root_node line m hm
    have hmin : ∀ n ∈ preorder t.root_node, node_contains_line n line = true →
        width m ≤ width n := by
      intro n hn hc
      have hnv : n ∈ visited t.root_node line := by
        rw [visited_eq_filter t.root_node line hwf]
        exact List.mem_filter.mpr ⟨hn, hc⟩
      rw [h2] at hnv
      rcases List.mem_append.mp hnv with h | h
      · exact le_of_lt (h3 n h)
      · rcases List.mem_cons.mp h with h | h
        · rw [h]
        · exact h4 n h
    refine ⟨m, h1, hm'.2, hm'.1, hmin, ?_⟩
    intro d hd hc
    exact not_lt.mpr (hmin d (preorder_trans t.root_node m hm'.2 d hd) hc)

/-- C2: The tie-break is first-visited-wins under pre-order: the node
returned by `find_scope` is the first node, in depth-first pre-order among
the nodes of the tree containing the line, whose width is less than or
equal to the returned node's width — hence among equal minimal-width
candidates the one encountered earlier in pre-order wins.  The function of
the embedding is pure, so the choice is identical on every call. -/
theorem claim_C2_tiebreak (t : Tree) (line : Int)
    (hwf : spans_nested t.root_node = true)
    (hroot : node_contains_line t.root_node line = true) :
    ∃ m : Node, find_scope t line = some (Scope.ofNode m) ∧
      ((preorder t.root_node).filter (fun d => node_contains_line d line)).find?
        (fun n => decide (width n ≤ width m)) = some m := by
  rcases find_scope_cases t line with ⟨h1, h2⟩ | ⟨m, L₁, L₂, h1, h2, h3, h4⟩
  · obtain ⟨rest, hv⟩ := visited_of_contains t.root_node line hroot
    rw [hv] at h2
    exact absurd h2 (by simp)
  · refine ⟨m, h1, ?_⟩
    rw [← visited_eq_filter t.root_node line hwf, h2]
    apply find?_first
    · intro n hn
      exact decide_eq_false (not_le.mpr (h3 n hn))
    · exact decide_eq_true (le_refl (width m))

/-- C3: Containment correctness: whenever `find_scope` returns a match
(`start_line`/`end_line` set), the returned 1-based span contains the
queried line — for every tree, well-formed or not. -/
theorem claim_C3_containment (t : Tree) (line : Int) (s : Scope) (ss se : Nat)
    (hs : find_scope t line = some s)
    (hss : s.start_line = some ss) (hse : s.end_line = some se) :
    (ss : Int) ≤ line ∧ line ≤ (se : Int) := by
  rcases find_scope_cases t line with ⟨h1, h2⟩ | ⟨m, L₁, L₂, h1, h2, h3, h4⟩
  · rw [hs] at h1
    have := Option.some.inj h1
    subst this
    simp [Scope.noMatch] at hss
  · rw [hs] at h1
    have := Option.some.inj h1
    subst this
    have hm : m ∈ visited t.root_node line := by
      rw [h2]
      exact List.mem_append_right _ (List.mem_cons_self _ _)
    have hc := (visited_subset t.root_node line m hm).1
    rw [node_contains_line_iff] at hc
    rw [Scope.ofNode] at hss hse
    simp only [Option.some.injEq] at hss hse
    omega

/-- C4: Pruning equivalence: on every tree satisfying the full §3 invariant
(`start ≤ end` at every node and child spans nested in parent spans), the
pruned search of `find_smallest_enclosing_scope` returns exactly the result
of the exhaustive pre-order search that examines every node of the tree and
folds with the same strict-smaller-width update rule. -/
theorem claim_C4_pruning_equiv (t : Tree) (line : Int)
    (hwf : well_formed t.root_node = true) :
    find_scope t line = some (exhaustive_resolve t.root_node line) := by
  rw [find_scope_eq_foldl,
    visited_eq_filter t.root_node line (well_formed_spans_nested _ hwf)]
  unfold exhaustive_resolve
  have h := foldl_exhaustive_eq line (preorder t.root_node) none
  rw [scopeOfBest_none] at h
  rw [h]

/-- C5: `find_scope` returns the all-`None` dictionary exactly when the root
does not contain the target line — in particular whenever the line exceeds
the root's 1-based `end_line` — and returns a match (the scope of some
node) otherwise. -/
theorem claim_C5_no_match_iff (t : Tree) (line : Int) :
    ∃ s : Scope, find_scope t line = some s ∧
      (s = Scope.noMatch ↔ node_contains_line t.root_node line = false) ∧
      ((t.root_node.end_point.1 : Int) + 1 < line → s = Scope.noMatch) ∧
      (node_contains_line t.root_node line = true →
        ∃ m : Node, s = Scope.ofNode m) := by
  by_cases h : node_contains_line t.root_node line = true
  · rcases find_scope_cases t line with ⟨h1, h2⟩ | ⟨m, L₁, L₂, h1, h2, h3, h4⟩
    · obtain ⟨rest, hv⟩ := visited_of_contains t.root_node line h
      rw [hv] at h2
      exact absurd h2 (by simp)
    · refine ⟨Scope.ofNode m, h1, ?_, ?_, fun _ => ⟨m, rfl⟩⟩
      · constructor
        · intro habs
          exact absurd habs (by simp [Scope.ofNode, Scope.noMatch])
        · intro hf
          rw [h] at hf
          exact absurd hf (by simp)
      · intro hgt
        exfalso
        rw [node_contains_line_iff] at h
        omega
  · refine ⟨Scope.noMatch, ?_, ?_, fun _ => rfl, fun hc => absurd hc h⟩
    · rw [find_scope_eq_foldl, visited_of_not_contains t.root_node line h]
      rfl
    · rw [Bool.not_eq_true] at h
      exact ⟨fun _ => h, fun _ => rfl⟩

/-- C6: Coordinate convention: the containment test holds for a node and a
target line iff `start_row + 1 ≤ line ≤ end_row + 1` (the 1-based inclusive
convention; the code tests the equivalent 0-based condition
`start_row ≤ line - 1 ≤ end_row`), and every reported match carries exactly
the parser node's 0-based rows plus one. -/
theorem claim_C6_coordinates (t : Tree) (n : Node) (line : Int) (s : Scope) :
    (node_contains_line n line = true ↔
      ((n.start_point.1 : Int) + 1 ≤ line ∧ line ≤ (n.end_point.1 : Int) + 1)) ∧
    (find_scope t line = some s → s.start_line ≠ none →
      ∃ m : Node, m ∈ preorder t.root_node ∧ s.type = some m.type ∧
        s.start_line = some (m.start_point.1 + 1) ∧
        s.end_line = some (m.end_point.1 + 1)) := by
  constructor
  · rw [node_contains_line_iff]
    omega
  · intro hs hne
    rcases find_scope_cases t line with ⟨h1, h2⟩ | ⟨m, L₁, L₂, h1, h2, h3, h4⟩
    · rw [hs] at h1
      have := Option.some.inj h1
      subst this
      exact absurd rfl hne
    · rw [hs] at h1
      have := Option.some.inj h1
      subst this
      have hm : m ∈ visited t.root_node line := by
        rw [h2]
        exact List.mem_append_right _ (List.mem_cons_self _ _)
      exact ⟨m, (visited_subset t.root_node line m hm).2, rfl, rfl, rfl⟩

/-- C9: The resolver is total on out-of-precondition lines: for every tree
and every integer target line `find_scope` returns a dictionary (never
raises), and for a non-positive line no node whatsoever contains the line
(every 0-based start row is at least 0), so the result is the all-`None`
no-match dictionary. -/
theorem claim_C9_total_nonpositive (t : Tree) (line : Int) :
    (∃ s : Scope, find_scope t line = some s) ∧
    (line ≤ 0 → find_scope t line = some Scope.noMatch ∧
      ∀ n : Node, node_contains_line n line = false) := by
  constructor
  · exact ⟨_, find_scope_eq_foldl t line⟩
  · intro hle
    have hnone : ∀ n : Node, node_contains_line n line = false := by
      intro n
      rw [Bool.eq_false_iff]
      intro hc
      rw [node_contains_line_iff] at hc
      omega
    refine ⟨?_, hnone⟩
    rw [find_scope_eq_foldl,
      visited_of_not_contains t.root_node line (by rw [hnone t.root_node]; simp)]
    rfl

/-- C10: Result-field coherence: the dictionary returned by `find_scope`
has either all three of `type`, `start_line`, `end_line` set or all three
`None`; hence the no-match test on `type` used by `display_result` and the
no-match test on `start_line` used in the resolver's update condition
agree, and `display_result` never raises on a resolver result. -/
theorem claim_C10_coherence (t : Tree) (line : Int) (s : Scope)
    (lines : List String) (hs : find_scope t line = some s) :
    ((s.type = none ∧ s.start_line = none ∧ s.end_line = none) ∨
      (s.type ≠ none ∧ s.start_line ≠ none ∧ s.end_line ≠ none)) ∧
    (s.type = none ↔ s.start_line = none) ∧
    (display_result s lines).isSome = true := by
  rcases find_scope_cases t line with ⟨h1, h2⟩ | ⟨m, L₁, L₂, h1, h2, h3, h4⟩
  · rw [hs] at h1
    have := Option.some.inj h1
    subst this
    refine ⟨Or.inl ⟨rfl, rfl, rfl⟩, by simp [Scope.noMatch], ?_⟩
    rfl
  · rw [hs] at h1
    have := Option.some.inj h1
    subst this
    refine ⟨Or.inr ⟨by simp [Scope.ofNode], by simp [Scope.ofNode],
      by simp [Scope.ofNode]⟩, by simp [Scope.ofNode], ?_⟩
    rfl

/-- C7: Pre-validation precedes resolution: `validate_line_number` rejects a
non-positive line number (printing the `InvalidLineNumber` message), rejects
a line number greater than the total line count (printing the
`LineOutOfRange` message), accepts all others, and in the rejecting cases
`main` exits with code 1 before the parser is invoked or any tree traversal
occurs. -/
theorem claim_C7_prevalidation (line : Int) (lines : List String)
    (parse : ParseOutcome) :
    (line ≤ 0 → validate_line_number line lines.length = false ∧
      validate_line_number_error line lines.length =
        some LineError.invalidLineNumber) ∧
    ((lines.length : Int) < line → validate_line_number line lines.length = false ∧
      validate_line_number_error line lines.length =
        some LineError.lineOutOfRange) ∧
    (0 < line → line ≤ (lines.length : Int) →
      validate_line_number line lines.length = true ∧
      validate_line_number_error line lines.length = none) ∧
    (validate_line_number line lines.length = false →
      main (FileResult.ok lines) line parse =
        ⟨1, false, false⟩) := by
  refine ⟨fun h => ?_, fun h => ?_, fun h1 h2 => ?_, fun h => ?_⟩
  · unfold validate_line_number validate_line_number_error
    rw [if_pos h, if_pos h]
    exact ⟨rfl, rfl⟩
  · have h0 : ¬ line ≤ 0 := by omega
    unfold validate_line_number validate_line_number_error
    rw [if_neg h0, if_neg h0, if_pos h, if_pos h]
    exact ⟨rfl, rfl⟩
  · have h0 : ¬ line ≤ 0 := by omega
    have h3 : ¬ line > (lines.length : Int) := not_lt.mpr h2
    unfold validate_line_number validate_line_number_error
    rw [if_neg h0, if_neg h0, if_neg h3, if_neg h3]
    exact ⟨rfl, rfl⟩
  · simp only [main]
    rw [if_neg (by simp [h])]

/-- C8: CLI exit codes: `main` exits with code 0 exactly on the success
path (file readable, line number valid, parse succeeded — covering both a
successful match and a well-formed no-match, since `display_result`
succeeds on every resolver result), and exits with code 1 on a missing
file, an unreadable file, a parse failure, and an invalid line number. -/
theorem claim_C8_exit_codes (file : FileResult) (line : Int)
    (parse : ParseOutcome) :
    ((main file line parse).exit_code = 0 ↔
      (∃ lines tree, file = FileResult.ok lines ∧ parse = ParseOutcome.ok tree ∧
        validate_line_number line lines.length = true)) ∧
    (main FileResult.notFound line parse).exit_code = 1 ∧
    (main FileResult.unreadable line parse).exit_code = 1 ∧
    (∀ lines, validate_line_number line lines.length = false →
      (main (FileResult.ok lines) line parse).exit_code = 1) ∧
    (∀ lines, (main (FileResult.ok lines) line ParseOutcome.error).exit_code = 1) := by
  refine ⟨⟨?_, ?_⟩, rfl, rfl, fun lines h => ?_, fun lines => ?_⟩
  · intro h
    cases file with
    | notFound => exact absurd h (by simp [main])
    | unreadable => exact absurd h (by simp [main])
    | ok lines =>
      by_cases hv : validate_line_number line lines.length = true
      · cases parse with
        | error =>
          simp only [main] at h
          rw [if_pos hv] at h
          exact absurd h (by simp)
        | ok tree => exact ⟨lines, tree, rfl, rfl, hv⟩
      · simp only [main] at h
        rw [if_neg hv] at h
        exact absurd h (by simp)
  · rintro ⟨lines, tree, rfl, rfl, hv⟩
    obtain ⟨s, out, hs, hd⟩ := find_scope_display_total tree line lines
    simp only [main]
    rw [if_pos hv]
    simp [hs, hd]
  · simp only [main]
    rw [if_neg (by simp [h])]
  · by_cases hv : validate_line_number line lines.length = true
    · simp only [main]
      rw [if_pos hv]
    · simp only [main]
      rw [if_neg hv]

/-!
## Witnesses: the claims evaluated on the spec §8 example scenario
-/

/-- Witness for C1 at the §8 example tree and line 8 (expected match:
`if_statement`, lines 7–9). -/
theorem claim_C1_minimality_witness :
    spans_nested example_program = true ∧
    node_contains_line example_program 8 = true ∧
    (∃ m : Node, find_scope ⟨example_program⟩ 8 = some (Scope.ofNode m) ∧
      m ∈ preorder example_program ∧ node_contains_line m 8 = true ∧
      (∀ n ∈ preorder example_program, node_contains_line n 8 = true →
        width m ≤ width n) ∧
      (∀ d ∈ preorder m, node_contains_line d 8 = true →
        ¬ width d < width m)) :=
  ⟨by decide, by decide,
    claim_C1_minimality ⟨example_program⟩ 8 (by decide) (by decide)⟩

/-- Witness for C2 at the tie tree (block and statement share span [3,6])
and line 3. -/
theorem claim_C2_tiebreak_witness :
    spans_nested tie_root = true ∧
    node_contains_line tie_root 3 = true ∧
    (∃ m : Node, find_scope ⟨tie_root⟩ 3 = some (Scope.ofNode m) ∧
      ((preorder tie_root).filter (fun d => node_contains_line d 3)).find?
        (fun n => decide (width n ≤ width m)) = some m) :=
  ⟨by decide, by decide, claim_C2_tiebreak ⟨tie_root⟩ 3 (by decide) (by decide)⟩

/-- Witness for C3: the match at line 8 spans [7,9] and 7 ≤ 8 ≤ 9. -/
theorem claim_C3_containment_witness :
    find_scope ⟨example_program⟩ 8 =
      some (Scope.mk (some "if_statement") (some 7) (some 9)) ∧
    ((7 : Nat) : Int) ≤ 8 ∧ (8 : Int) ≤ ((9 : Nat) : Int) :=
  ⟨by decide, claim_C3_containment ⟨example_program⟩ 8
    (Scope.mk (some "if_statement") (some 7) (some 9)) 7 9 (by decide) rfl rfl⟩

/-- Witness for C4 at the §8 example tree and line 5. -/
theorem claim_C4_pruning_equiv_witness :
    well_formed example_program = true ∧
    find_scope ⟨example_program⟩ 5 = some (exhaustive_resolve example_program 5) :=
  ⟨by decide, claim_C4_pruning_equiv ⟨example_program⟩ 5 (by decide)⟩

/-- Witness for C5 at line 25, past the root span [1,20]. -/
theorem claim_C5_no_match_iff_witness :
    ∃ s : Scope, find_scope ⟨example_program⟩ 25 = some s ∧
      (s = Scope.noMatch ↔ node_contains_line example_program 25 = false) ∧
      ((example_program.end_point.1 : Int) + 1 < 25 → s = Scope.noMatch) ∧
      (node_contains_line example_program 25 = true →
        ∃ m : Node, s = Scope.ofNode m) :=
  claim_C5_no_match_iff ⟨example_program⟩ 25

/-- Witness for C6: the match reported at line 8 carries the if-statement
node's rows plus one. -/
theorem claim_C6_coordinates_witness :
    ∃ m : Node, m ∈ preorder example_program ∧
      (Scope.mk (some "if_statement") (some 7) (some 9)).type = some m.type ∧
      (Scope.mk (some "if_statement") (some 7) (some 9)).start_line =
        some (m.start_point.1 + 1) ∧
      (Scope.mk (some "if_statement") (some 7) (some 9)).end_line =
        some (m.end_point.1 + 1) :=
  (claim_C6_coordinates ⟨example_program⟩ example_if 8
    (Scope.mk (some "if_statement") (some 7) (some 9))).2 (by decide) (by simp)

/-- Witness for C7 on a two-line file: line -1 is `InvalidLineNumber`,
line 5 is `LineOutOfRange`, line 2 is accepted, and on rejection `main`
exits 1 with neither parser nor resolver invoked. -/
theorem claim_C7_prevalidation_witness :
    (validate_line_number (-1) (["int x;", "int y;"].length) = false ∧
      validate_line_number_error (-1) (["int x;", "int y;"].length) =
        some LineError.invalidLineNumber) ∧
    (validate_line_number 5 (["int x;", "int y;"].length) = false ∧
      validate_line_number_error 5 (["int x;", "int y;"].length) =
        some LineError.lineOutOfRange) ∧
    (validate_line_number 2 (["int x;", "int y;"].length) = true ∧
      validate_line_number_error 2 (["int x;", "int y;"].length) = none) ∧
    main (FileResult.ok ["int x;", "int y;"]) (-1) ParseOutcome.error =
      ⟨1, false, false⟩ :=
  ⟨(claim_C7_prevalidation (-1) ["int x;", "int y;"] ParseOutcome.error).1
      (by decide),
   (claim_C7_prevalidation 5 ["int x;", "int y;"] ParseOutcome.error).2.1
      (by decide),
   (claim_C7_prevalidation 2 ["int x;", "int y;"] ParseOutcome.error).2.2.1
      (by decide) (by decide),
   (claim_C7_prevalidation (-1) ["int x;", "int y;"] ParseOutcome.error).2.2.2
      (by decide)⟩

/-- Witness for C8: exit 0 on the success path, exit 1 on a missing file. -/
theorem claim_C8_exit_codes_witness :
    (main (FileResult.ok ["class A", "end"]) 1
      (ParseOutcome.ok ⟨example_program⟩)).exit_code = 0 ∧
    (main FileResult.notFound 1 ParseOutcome.error).exit_code = 1 :=
  ⟨(claim_C8_exit_codes (FileResult.ok ["class A", "end"]) 1
      (ParseOutcome.ok ⟨example_program⟩)).1.mpr
      ⟨["class A", "end"], ⟨example_program⟩, rfl, rfl, by decide⟩,
   (claim_C8_exit_codes FileResult.notFound 1 ParseOutcome.error).2.1⟩

/-- Witness for C9 at line -5: the resolver returns, the result is the
all-`None` dictionary, and in particular the root does not contain -5. -/
theorem claim_C9_total_nonpositive_witness :
    (∃ s : Scope, find_scope ⟨example_program⟩ (-5) = some s) ∧
    find_scope ⟨example_program⟩ (-5) = some Scope.noMatch ∧
    node_contains_line example_program (-5) = false :=
  ⟨(claim_C9_total_nonpositive ⟨example_program⟩ (-5)).1,
   ((claim_C9_total_nonpositive ⟨example_program⟩ (-5)).2 (by decide)).1,
   ((claim_C9_total_nonpositive ⟨example_program⟩ (-5)).2 (by decide)).2
      example_program⟩

/-- Witness for C10 at line 8: the returned dictionary has all three fields
set, the two no-match tests agree, and `display_result` succeeds. -/
theorem claim_C10_coherence_witness :
    (((Scope.mk (some "if_statement") (some 7) (some 9)).type = none ∧
        (Scope.mk (some "if_statement") (some 7) (some 9)).start_line = none ∧
        (Scope.mk (some "if_statement") (some 7) (some 9)).end_line = none) ∨
      ((Scope.mk (some "if_statement") (some 7) (some 9)).type ≠ none ∧
        (Scope.mk (some "if_statement") (some 7) (some 9)).start_line ≠ none ∧
        (Scope.mk (some "if_statement") (some 7) (some 9)).end_line ≠ none)) ∧
    ((Scope.mk (some "if_statement") (some 7) (some 9)).type = none ↔
      (Scope.mk (some "if_statement") (some 7) (some 9)).start_line = none) ∧
    (display_result (Scope.mk (some "if_statement") (some 7) (some 9))
      ["a", "b", "c", "d", "e", "f", "g", "h", "i", "j"]).isSome = true :=
  claim_C10_coherence ⟨example_program⟩ 8
    (Scope.mk (some "if_statement") (some 7) (some 9))
    ["a", "b", "c", "d", "e", "f", "g", "h", "i", "j"] (by decide)

end JavaScopeFinder
